import Mathlib

/-!
Verification development for the `siderite` crate, a client for the DDP
(publish/subscribe + RPC) protocol.

The development shallowly embeds the parts of the code the specification
talks about:

* `src/randomslab.rs` — the random-label correlation slab (`Slab`), built on
  the `slab` crate's array-backed free-list allocator (`SlabRep`);
* `src/protocol.rs` — the wire message types (`ClientMessage`,
  `ServerMessage`, `MethodResponse`, `Timestamp`) together with their serde
  (de)serialization, modelled at the level of structured JSON values
  (`Json`): the spec treats JSON text encoding as an opaque structured value
  type, and `serde_json`'s value/text layer is out of scope;
* `src/connection.rs` — the `MethodResponse → MethodResult` conversion, the
  handshake prologue of `connect_with_websocket`, and the inbound arm of the
  actor loop.

Rust machine integers are modelled as `Nat` with explicit `2 ^ 64` bounds
where `usize`/`u64` overflow matters.  Rust strings are modelled as Lean
`String`/`List Char`; the byte-level comparison `entry.0 == label.as_bytes()`
in `randomslab.rs` coincides with character-level equality because every
stored label consists of ASCII alphabetic characters (the only label source
is `random_label`, which draws from `fastrand::alphabetic`).
-/

/-! ## JSON values (`serde_json::Value`, treated as a structured value type) -/

/-- A structured JSON value, the model of `serde_json::Value`.  Numbers are
modelled as integers; none of the verified properties depend on float
payloads. -/
inductive Json where
  | null : Json
  | bool (b : Bool) : Json
  | num (n : Int) : Json
  | str (s : String) : Json
  | arr (xs : List Json) : Json
  | obj (fields : List (String × Json)) : Json

/-! ## Token parsing: `split2` and `str::parse::<usize>` from `randomslab.rs` -/

/-- Model of `str::parse::<usize>` on a 64-bit target: an optional single
leading `+`, then a nonempty run of ASCII digits, rejecting any other
character and rejecting values that overflow `2 ^ 64`. -/
def parseUsize (cs : List Char) : Option Nat :=
  let ds := match cs with
    | '+' :: rest => rest
    | other => other
  if ds.isEmpty then none
  else if ds.all Char.isDigit then
    let v := ds.foldl (fun a c => a * 10 + (c.toNat - 48)) 0
    if v < 2 ^ 64 then some v else none
  else none

/-- Model of `s.splitn(2, ':')` producing its two chunks: the part before the
first `':'` and everything after it (which may itself contain `':'`).
Returns `none` when there is no `':'` at all, in which case the Rust code's
`split.next()?` for the second chunk fails.  (`splitn(2, _)` never yields a
third chunk, so the `split.next().is_some()` guard in the source is dead.) -/
def splitColon (cs : List Char) : Option (List Char × List Char) :=
  match cs with
  | [] => none
  | c :: rest =>
    if c = ':' then some ([], rest)
    else match splitColon rest with
      | none => none
      | some (a, b) => some (c :: a, b)

/-- Model of `randomslab::split2`: split the token at the first `':'` and
parse the front as a `usize`. -/
def split2 (s : String) : Option (Nat × List Char) :=
  match splitColon s.data with
  | none => none
  | some (one, two) =>
    match parseUsize one with
    | none => none
    | some n => some (n, two)

/-- Decimal digit characters, used to model `format!("{}", idx)`. -/
def digitChar (d : Nat) : Char :=
  match d with
  | 0 => '0' | 1 => '1' | 2 => '2' | 3 => '3' | 4 => '4'
  | 5 => '5' | 6 => '6' | 7 => '7' | 8 => '8' | _ => '9'

/-- Accumulator version of the decimal representation of a `Nat`. -/
def natReprAux (n : Nat) (acc : List Char) : List Char :=
  let d := digitChar (n % 10)
  if h : n < 10 then d :: acc
  else natReprAux (n / 10) (d :: acc)
termination_by n
decreasing_by exact Nat.div_lt_self (by omega) (by omega)

/-- Model of `format!("{}", n)` for a `usize`: decimal digits, no sign, no
leading zeros (except for `0` itself). -/
def natRepr (n : Nat) : List Char := natReprAux n []

/-! ## The `slab` crate: array-backed allocator with a LIFO free list -/

/-- One slot of `slab::Slab`: either vacant, storing the index of the next
free slot (the tail of the free list), or occupied by a value. -/
inductive Entry (T : Type) where
  | vacant (next : Nat) : Entry T
  | occupied (val : T) : Entry T
deriving DecidableEq

/-- Model of `slab::Slab<T>`: the entry array plus the head `next` of the
free list (`next = entries.len()` means the free list is empty and the next
insertion appends). -/
structure SlabRep (T : Type) where
  entries : List (Entry T)
  next : Nat
deriving DecidableEq

namespace SlabRep

/-- Model of `slab::Slab::insert` (via `insert_at`): insert at the free-list
head `next`; append when `next` equals the array length, otherwise overwrite
the vacant slot at `next` and pop the free list.  The final arm is
`unreachable!()` in the crate (the free-list head always points at a vacant
slot in every reachable slab); it is modelled as a no-op. -/
def insertRep (s : SlabRep T) (v : T) : Nat × SlabRep T :=
  let key := s.next
  if key = s.entries.length then
    (key, ⟨s.entries ++ [.occupied v], key + 1⟩)
  else
    match s.entries[key]? with
    | some (.vacant k) => (key, ⟨s.entries.set key (.occupied v), k⟩)
    | _ => (key, s)

/-- Model of `slab::Slab::get`: `Some` exactly on occupied in-range slots. -/
def getRep (s : SlabRep T) (n : Nat) : Option T :=
  match s.entries[n]? with
  | some (.occupied v) => some v
  | _ => none

/-- Model of `slab::Slab::remove` on an occupied slot: mark the slot vacant,
push it on the free list, and return the value.  The crate panics on a
vacant or out-of-range slot; `randomslab.rs` only calls `remove` after a
successful `get`, and the model returns `none` leaving the slab unchanged
in that unreached case. -/
def removeRep (s : SlabRep T) (n : Nat) : Option T × SlabRep T :=
  match s.entries[n]? with
  | some (.occupied v) => (some v, ⟨s.entries.set n (.vacant s.next), n⟩)
  | _ => (none, s)

end SlabRep

/-- The free list of a `slab::Slab` as an explicit simple chain: `FreeList
ent n l` says that starting from head `n`, following the `vacant` pointers
visits exactly the (distinct) slots in `l` and ends at `ent.length`. -/
inductive FreeList {T : Type} : List (Entry T) → Nat → List Nat → Prop where
  | nil (ent : List (Entry T)) : FreeList ent ent.length []
  | cons {ent : List (Entry T)} {n k : Nat} {l : List Nat}
      (hget : ent[n]? = some (.vacant k))
      (htail : FreeList ent k l)
      (hnotmem : n ∉ l) :
      FreeList ent n (n :: l)

/-- Well-formedness of a slab representation: `next` heads a genuine free
list.  Every slab reachable through the `slab` crate's API satisfies
this. -/
def SlabWf {T : Type} (s : SlabRep T) : Prop :=
  ∃ l, FreeList s.entries s.next l

/-! ## `randomslab.rs`: the random-label correlation slab -/

/-- A slot label, the model of `type Label = [u8; 8]` (stored labels always
hold 8 ASCII alphabetic bytes, drawn by `random_label`). -/
abbrev Label := List Char

/-- The correlation slab `randomslab::Slab<T>`, a `slab::Slab` of
label/value pairs. -/
abbrev Slab (T : Type) := SlabRep (Label × T)

namespace Slab

/-- Model of `randomslab::Slab::new`. -/
def empty (T : Type) : Slab T := ⟨[], 0⟩

/-- Model of `randomslab::Slab::insert`.  The randomness of `random_label`
is modelled by taking the drawn label as an argument; the returned token is
`format!("{}:{}", idx, label)`. -/
def insert (label : Label) (v : T) (s : Slab T) : String × Slab T :=
  let r := SlabRep.insertRep s (label, v)
  (⟨natRepr r.1 ++ ':' :: label⟩, r.2)

/-- Model of `randomslab::Slab::get`: parse the token, fetch the slot,
compare the stored label to the token's label part. -/
def get (key : String) (s : Slab T) : Option T :=
  match split2 key with
  | none => none
  | some (n, label) =>
    match SlabRep.getRep s n with
    | some e => if e.1 = label then some e.2 else none
    | none => none

/-- Model of `randomslab::Slab::remove`: parse the token, fetch the slot,
and on a label match remove the slot and return the value part. -/
def remove (key : String) (s : Slab T) : Option T × Slab T :=
  match split2 key with
  | none => (none, s)
  | some (n, label) =>
    match SlabRep.getRep s n with
    | some e =>
      if e.1 = label then
        let r := SlabRep.removeRep s n
        (r.1.map Prod.snd, r.2)
      else (none, s)
    | none => (none, s)

end Slab

/-- An ASCII alphabetic character, the range of `fastrand::alphabetic`. -/
def alphaChar (c : Char) : Prop :=
  ('a' ≤ c ∧ c ≤ 'z') ∨ ('A' ≤ c ∧ c ≤ 'Z')

instance (c : Char) : Decidable (alphaChar c) := by
  unfold alphaChar; infer_instance

/-- A label as produced by `random_label`: exactly 8 characters, all ASCII
alphabetic. -/
def GoodLabel (l : Label) : Prop :=
  l.length = 8 ∧ ∀ c ∈ l, alphaChar c

instance (l : Label) : Decidable (GoodLabel l) := by
  unfold GoodLabel; infer_instance

/-- Every stored label in the slab is a `random_label`-style label.  This
holds in every reachable state of `randomslab::Slab`: the `[u8; 8]` type
fixes the length and `random_label` (the only label source — the slab's
field is private) draws only alphabetic bytes. -/
def WfLabels {T : Type} (s : Slab T) : Prop :=
  ∀ (n : Nat) (e : Label × T), s.entries[n]? = some (.occupied e) → GoodLabel e.1

/-! ## `protocol.rs`: wire message types -/

/-- Model of `protocol::Timestamp`: `{ "$date": millis }` with `millis :
Option<u64>` (the `u64` bound is carried as a side condition where it
matters). -/
structure Timestamp where
  millis : Option Nat
deriving DecidableEq

/-- Model of the manual `PartialOrd for Timestamp` impl: comparable only
when both operands carry a value, otherwise incomparable (`None`). -/
def Timestamp.tryCompare (a b : Timestamp) : Option Ordering :=
  match a.millis, b.millis with
  | some x, some y => some (compare x y)
  | _, _ => none

/-- Model of `protocol::MethodResponse`. -/
structure MethodResponse where
  id : String
  result : Option Json
  error : Option Json

/-- Model of `protocol::ClientMessage` (serde: internally tagged with
`msg`, variant names in camelCase). -/
inductive ClientMessage where
  | connect (version : String) (support : List String) (session : Option String)
  | ping (id : Option String)
  | pong (id : Option String)
  | method (id : String) (method : String) (params : List Json)
  | sub (id : String) (name : String) (params : List Json)
  | unsub (id : String)

/-- Model of `protocol::ServerMessage` (serde: internally tagged with
`msg`, variant names in camelCase). -/
inductive ServerMessage where
  | connected (session : String)
  | failed (version : String)
  | ping (id : Option String)
  | pong (id : Option String)
  | result (r : MethodResponse)
  | nosub (id : String) (error : Option Json)
  | updated (methods : List String)
  | added (collection : String) (id : String) (fields : Option Json)
  | changed (collection : String) (id : String) (fields : Option Json)
      (cleared : Option (List String))
  | removed (collection : String) (id : String)
  | ready (subs : List String)
  | addedBefore (collection : String) (id : String) (fields : Option Json)
      (before : Option String)
  | movedBefore (before : Option String)

/-! ## serde serialization, at the JSON value level

Each `#[serde(skip_serializing_if="Option::is_none")]` field contributes
either nothing (`None`) or one key (`Some`); an `Option` field *without*
that attribute is always emitted, with `None` serialized as JSON `null`. -/

/-- Field list contribution of an optional field marked
`skip_serializing_if="Option::is_none"`. -/
def optJField (key : String) : Option Json → List (String × Json)
  | none => []
  | some v => [(key, v)]

/-- Serialization of an `Option` field without `skip_serializing_if`:
`None` becomes JSON `null`. -/
def jsonOfOpt (f : α → Json) : Option α → Json
  | none => .null
  | some a => f a

/-- serde serialization of `Timestamp`. -/
def encodeTimestamp (t : Timestamp) : Json :=
  .obj [("$date", jsonOfOpt (fun n => .num n) t.millis)]

/-- The field list of the serde serialization of `MethodResponse` (both
`result` and `error` are skip-if-none). -/
def methodResponseFields (r : MethodResponse) : List (String × Json) :=
  [("id", .str r.id)] ++ optJField "result" r.result ++ optJField "error" r.error

/-- serde serialization of `MethodResponse` as a standalone document. -/
def encodeMethodResponse (r : MethodResponse) : Json :=
  .obj (methodResponseFields r)

/-- serde serialization of `ClientMessage`: the `msg` tag first, then the
fields in declaration order. -/
def encodeClient : ClientMessage → Json
  | .connect version support session =>
    .obj ([("msg", .str "connect"), ("version", .str version),
           ("support", .arr (support.map .str))] ++
          optJField "session" (session.map .str))
  | .ping id => .obj ([("msg", .str "ping")] ++ optJField "id" (id.map .str))
  | .pong id => .obj ([("msg", .str "pong")] ++ optJField "id" (id.map .str))
  | .method id m params =>
    .obj [("msg", .str "method"), ("id", .str id), ("method", .str m),
          ("params", .arr params)]
  | .sub id name params =>
    .obj [("msg", .str "sub"), ("id", .str id), ("name", .str name),
          ("params", .arr params)]
  | .unsub id => .obj [("msg", .str "unsub"), ("id", .str id)]

/-- serde serialization of `ServerMessage`: the `msg` tag first, then the
fields in declaration order.  `added.fields`, `addedBefore.before` and
`movedBefore.before` carry no `skip_serializing_if` attribute in the
source, so they are always emitted, with `None` as `null`. -/
def encodeServer : ServerMessage → Json
  | .connected session => .obj [("msg", .str "connected"), ("session", .str session)]
  | .failed version => .obj [("msg", .str "failed"), ("version", .str version)]
  | .ping id => .obj ([("msg", .str "ping")] ++ optJField "id" (id.map .str))
  | .pong id => .obj ([("msg", .str "pong")] ++ optJField "id" (id.map .str))
  | .result r => .obj (("msg", .str "result") :: methodResponseFields r)
  | .nosub id error =>
    .obj ([("msg", .str "nosub"), ("id", .str id)] ++ optJField "error" error)
  | .updated methods =>
    .obj [("msg", .str "updated"), ("methods", .arr (methods.map .str))]
  | .added collection id fields =>
    .obj [("msg", .str "added"), ("collection", .str collection),
          ("id", .str id), ("fields", jsonOfOpt (fun v => v) fields)]
  | .changed collection id fields cleared =>
    .obj ([("msg", .str "changed"), ("collection", .str collection),
           ("id", .str id)] ++ optJField "fields" fields ++
          optJField "cleared" (cleared.map (fun l => .arr (l.map .str))))
  | .removed collection id =>
    .obj [("msg", .str "removed"), ("collection", .str collection),
          ("id", .str id)]
  | .ready subs => .obj [("msg", .str "ready"), ("subs", .arr (subs.map .str))]
  | .addedBefore collection id fields before =>
    .obj ([("msg", .str "addedBefore"), ("collection", .str collection),
           ("id", .str id)] ++ optJField "fields" fields ++
          [("before", jsonOfOpt .str before)])
  | .movedBefore before =>
    .obj [("msg", .str "movedBefore"), ("before", jsonOfOpt .str before)]

/-! ## serde deserialization, at the JSON value level

The derived deserializers look fields up by name (order-insensitive),
ignore unknown fields, and treat a missing or `null` `Option` field as
`None` (serde's built-in `Option` handling; the `default` attributes on
some fields have the same effect for `Option` types). -/

/-- Look a field up in a JSON object's field list (first match). -/
def getField (fields : List (String × Json)) (key : String) : Option Json :=
  match fields with
  | [] => none
  | (k, v) :: rest => if k = key then some v else getField rest key

/-- Decode a required `String` field. -/
def getStrField (fields : List (String × Json)) (key : String) : Option String :=
  match getField fields key with
  | some (.str s) => some s
  | _ => none

/-- Decode a list of JSON strings into a `Vec<String>`. -/
def decodeStrList (xs : List Json) : Option (List String) :=
  match xs with
  | [] => some []
  | .str s :: rest =>
    match decodeStrList rest with
    | some l => some (s :: l)
    | none => none
  | _ => none

/-- Decode a required `Vec<String>` field. -/
def getStrListField (fields : List (String × Json)) (key : String) :
    Option (List String) :=
  match getField fields key with
  | some (.arr xs) => decodeStrList xs
  | _ => none

/-- Decode a required `Vec<Value>` field. -/
def getArrField (fields : List (String × Json)) (key : String) :
    Option (List Json) :=
  match getField fields key with
  | some (.arr xs) => some xs
  | _ => none

/-- Decode an `Option<String>` field: missing or `null` is `None`. -/
def getOptStrField (fields : List (String × Json)) (key : String) :
    Option (Option String) :=
  match getField fields key with
  | none => some none
  | some .null => some none
  | some (.str s) => some (some s)
  | some _ => none

/-- Decode an `Option<Value>` field: missing or `null` is `None` (a JSON
`null` can therefore never decode to `Some(Value::Null)`). -/
def getOptJsonField (fields : List (String × Json)) (key : String) :
    Option (Option Json) :=
  match getField fields key with
  | none => some none
  | some .null => some none
  | some v => some (some v)

/-- Decode an `Option<Vec<String>>` field: missing or `null` is `None`. -/
def getOptStrListField (fields : List (String × Json)) (key : String) :
    Option (Option (List String)) :=
  match getField fields key with
  | none => some none
  | some .null => some none
  | some (.arr xs) =>
    match decodeStrList xs with
    | some l => some (some l)
    | none => none
  | some _ => none

/-- serde deserialization of `Timestamp` (`$date` is `Option<u64>`). -/
def decodeTimestamp (j : Json) : Option Timestamp :=
  match j with
  | .obj fields =>
    match getField fields "$date" with
    | none => some ⟨none⟩
    | some .null => some ⟨none⟩
    | some (.num i) =>
      if 0 ≤ i ∧ i < 2 ^ 64 then some ⟨some i.toNat⟩ else none
    | some _ => none
  | _ => none

/-- serde deserialization of `MethodResponse` from an object's field
list. -/
def decodeMethodResponseFields (fields : List (String × Json)) :
    Option MethodResponse :=
  match getStrField fields "id" with
  | none => none
  | some id =>
    match getOptJsonField fields "result" with
    | none => none
    | some result =>
      match getOptJsonField fields "error" with
      | none => none
      | some error => some ⟨id, result, error⟩

/-- serde deserialization of `MethodResponse` as a standalone document. -/
def decodeMethodResponse (j : Json) : Option MethodResponse :=
  match j with
  | .obj fields => decodeMethodResponseFields fields
  | _ => none

/-- serde deserialization of `ClientMessage`: dispatch on the `msg` tag,
then decode the variant's fields by name. -/
def decodeClient (j : Json) : Option ClientMessage :=
  match j with
  | .obj fields =>
    match getField fields "msg" with
    | some (.str tag) =>
      if tag = "connect" then
        match getStrField fields "version", getStrListField fields "support",
              getOptStrField fields "session" with
        | some v, some sup, some sess => some (.connect v sup sess)
        | _, _, _ => none
      else if tag = "ping" then
        match getOptStrField fields "id" with
        | some id => some (.ping id)
        | none => none
      else if tag = "pong" then
        match getOptStrField fields "id" with
        | some id => some (.pong id)
        | none => none
      else if tag = "method" then
        match getStrField fields "id", getStrField fields "method",
              getArrField fields "params" with
        | some id, some m, some params => some (.method id m params)
        | _, _, _ => none
      else if tag = "sub" then
        match getStrField fields "id", getStrField fields "name",
              getArrField fields "params" with
        | some id, some name, some params => some (.sub id name params)
        | _, _, _ => none
      else if tag = "unsub" then
        match getStrField fields "id" with
        | some id => some (.unsub id)
        | none => none
      else none
    | _ => none
  | _ => none

/-- serde deserialization of `ServerMessage`: dispatch on the `msg` tag,
then decode the variant's fields by name. -/
def decodeServer (j : Json) : Option ServerMessage :=
  match j with
  | .obj fields =>
    match getField fields "msg" with
    | some (.str tag) =>
      if tag = "connected" then
        match getStrField fields "session" with
        | some s => some (.connected s)
        | none => none
      else if tag = "failed" then
        match getStrField fields "version" with
        | some v => some (.failed v)
        | none => none
      else if tag = "ping" then
        match getOptStrField fields "id" with
        | some id => some (.ping id)
        | none => none
      else if tag = "pong" then
        match getOptStrField fields "id" with
        | some id => some (.pong id)
        | none => none
      else if tag = "result" then
        match decodeMethodResponseFields fields with
        | some r => some (.result r)
        | none => none
      else if tag = "nosub" then
        match getStrField fields "id", getOptJsonField fields "error" with
        | some id, some e => some (.nosub id e)
        | _, _ => none
      else if tag = "updated" then
        match getStrListField fields "methods" with
        | some ms => some (.updated ms)
        | none => none
      else if tag = "added" then
        match getStrField fields "collection", getStrField fields "id",
              getOptJsonField fields "fields" with
        | some c, some id, some f => some (.added c id f)
        | _, _, _ => none
      else if tag = "changed" then
        match getStrField fields "collection", getStrField fields "id",
              getOptJsonField fields "fields",
              getOptStrListField fields "cleared" with
        | some c, some id, some f, some cl => some (.changed c id f cl)
        | _, _, _, _ => none
      else if tag = "removed" then
        match getStrField fields "collection", getStrField fields "id" with
        | some c, some id => some (.removed c id)
        | _, _ => none
      else if tag = "ready" then
        match getStrListField fields "subs" with
        | some subs => some (.ready subs)
        | none => none
      else if tag = "addedBefore" then
        match getStrField fields "collection", getStrField fields "id",
              getOptJsonField fields "fields",
              getOptStrField fields "before" with
        | some c, some id, some f, some b => some (.addedBefore c id f b)
        | _, _, _, _ => none
      else if tag = "movedBefore" then
        match getOptStrField fields "before" with
        | some b => some (.movedBefore b)
        | none => none
      else none
    | _ => none
  | _ => none

/-! ## `connection.rs`: method results, handshake, and the actor's inbound arm -/

/-- Model of `connection::MethodResult = Result<Value, RPCError>`: either
the success payload or the wrapped `RPCError` payload. -/
abbrev MethodResult := Except Json Json

/-- Model of `impl Into<MethodResult> for MethodResponse`: a present
`error` field wins (regardless of `result`); otherwise success with
`result` defaulting to `Value::Null`. -/
def MethodResponse.toMethodResult (r : MethodResponse) : MethodResult :=
  match r with
  | { error := some e, .. } => .error e
  | { result, .. } => .ok (result.getD .null)

/-- The handshake prologue of `Connection::connect_with_websocket`,
parameterized by the type `α` of raw inbound websocket frames (they are
consumed *before* the `ServerMessage` decoding layer is installed, so their
content is arbitrary).  Returns the outbound frames sent and either the
uninspected remainder of the inbound stream or the error the `?` operator
raises when the stream ends early. -/
def handshake (α : Type) (inbound : List α) :
    List ClientMessage × Except String (List α) :=
  (([.connect "1" ["1"] none]),
   match inbound with
   | [] => .error "no server version"
   | [_] => .error "no connected msg"
   | _ :: _ :: rest => .ok rest)

/-- An observable effect of one iteration of the actor loop's inbound arm:
an outbound protocol frame (`ws_up.send`), a delivery to a pending caller's
oneshot channel (whose own success is discarded by the `let _ =` in the
source), or a message forwarded to the consumer (`down_tx.send`). -/
inductive ActorEffect where
  | sendUp (m : ClientMessage)
  | deliver (chan : Nat) (r : MethodResult)
  | forward (m : ServerMessage)

/-- The inbound arm of the actor loop in `connect_with_websocket`, for one
decoded `ServerMessage`.  Pending calls are `oneshot::Sender`s, modelled by
opaque channel identifiers (`Nat`).  `Ping` is answered with `Pong` echoing
the optional id; `Result` resolves the correlation id against the pending
slab, delivering on a hit and terminating the actor
(`Err("Unknown call response ID")`) on a miss; every other variant is
forwarded verbatim. -/
def handleDown (pending : Slab Nat) (m : ServerMessage) :
    Except String (Slab Nat × List ActorEffect) :=
  match m with
  | .ping id => .ok (pending, [.sendUp (.pong id)])
  | .result r =>
    match Slab.remove r.id pending with
    | (some chan, p) => .ok (p, [.deliver chan r.toMethodResult])
    | (none, _) => .error "Unknown call response ID"
  | other => .ok (pending, [.forward other])

/-- Run the actor's inbound arm over a list of decoded frames in order,
accumulating effects; a terminating error stops the loop, leaving all later
frames unprocessed. -/
def runDown (pending : Slab Nat) (msgs : List ServerMessage) :
    Slab Nat × List ActorEffect × Option String :=
  match msgs with
  | [] => (pending, [], none)
  | m :: rest =>
    match handleDown pending m with
    | .error e => (pending, [], some e)
    | .ok (p, evs) =>
      let r := runDown p rest
      (r.1, evs ++ r.2.1, r.2.2)

/-! ## Slab operation traces -/

/-- One mutating operation on a correlation slab, for trace-based
statements: an insertion (with the label drawn by `random_label` made
explicit) or a removal by token. -/
inductive SlabOp (T : Type) where
  | ins (label : Label) (v : T)
  | rem (key : String)

/-- Apply one operation to a slab. -/
def applyOp (s : Slab T) : SlabOp T → Slab T
  | .ins label v => (Slab.insert label v s).2
  | .rem key => (Slab.remove key s).2

/-- Run a trace of slab operations from a starting state. -/
def runOps (s : Slab T) (ops : List (SlabOp T)) : Slab T :=
  ops.foldl applyOp s

/-! ## Basic lemmas about the slab model -/

theorem getRep_eq_some {T : Type} (s : SlabRep T) (n : Nat) (v : T) :
    s.getRep n = some v ↔ s.entries[n]? = some (.occupied v) := by
  rcases h : s.entries[n]? with _ | e
  · simp [SlabRep.getRep, h]
  · cases e <;> simp [SlabRep.getRep, h]

theorem getRep_eq_none {T : Type} (s : SlabRep T) (n : Nat) :
    s.getRep n = none ↔ ∀ v, s.entries[n]? ≠ some (.occupied v) := by
  rcases h : s.entries[n]? with _ | e
  · simp [SlabRep.getRep, h]
  · cases e <;> simp [SlabRep.getRep, h]

theorem removeRep_of_occupied {T : Type} (s : SlabRep T) (n : Nat) (v : T)
    (h : s.entries[n]? = some (.occupied v)) :
    s.removeRep n = (some v, ⟨s.entries.set n (.vacant s.next), n⟩) := by
  unfold SlabRep.removeRep
  rw [h]

/-- `Slab.remove` on a miss leaves the slab unchanged (the raw shape of the
source's early-return paths). -/
theorem remove_miss_eq {T : Type} (s : Slab T) (k : String)
    (h : (Slab.remove k s).1 = none) : (Slab.remove k s).2 = s := by
  unfold Slab.remove at h ⊢
  rcases hsp : split2 k with _ | ⟨n, label⟩
  · simp only [hsp]
  · simp only [hsp] at h ⊢
    rcases hg : SlabRep.getRep s n with _ | e
    · simp only [hg]
    · simp only [hg] at h ⊢
      by_cases he : e.1 = label
      · exfalso
        rw [removeRep_of_occupied s n e ((getRep_eq_some s n e).1 hg)] at h
        simp [he] at h
      · simp [he]

/-- C6: converting a `MethodResponse` to a call result yields a failure
carrying the error payload whenever the `error` field is present (regardless
of the `result` field), and a success otherwise, the success value being the
`result` field's value or JSON `null` when absent. -/
theorem C6_method_response_into_result (r : MethodResponse) :
    (∀ e, r.error = some e → r.toMethodResult = .error e) ∧
    (r.error = none → r.toMethodResult = .ok (r.result.getD .null)) := by
  obtain ⟨id, result, error⟩ := r
  constructor
  · rintro e rfl
    rfl
  · rintro rfl
    rfl

theorem C6_witness :
    (MethodResponse.mk "a" (some (.str "x")) (some (.bool true))).error
        = some (.bool true) ∧
    (MethodResponse.mk "a" (some (.str "x")) (some (.bool true))).toMethodResult
        = .error (.bool true) ∧
    (MethodResponse.mk "b" none none).error = none ∧
    (MethodResponse.mk "b" none none).toMethodResult = .ok .null :=
  ⟨rfl,
   (C6_method_response_into_result ⟨"a", some (.str "x"), some (.bool true)⟩).1
     (.bool true) rfl,
   rfl,
   (C6_method_response_into_result ⟨"b", none, none⟩).2 rfl⟩

/-- C7: during connection setup the first (and only) outbound frame is
`Connect{version:"1", support:["1"], session:None}`; exactly two inbound
frames are then consumed, with success regardless of their content; if the
stream ends before either of the two frames, setup fails with an error. -/
theorem C7_handshake_frames (α : Type) :
    (∀ inbound : List α, (handshake α inbound).1 = [.connect "1" ["1"] none]) ∧
    ((handshake α []).2 = .error "no server version") ∧
    (∀ a : α, (handshake α [a]).2 = .error "no connected msg") ∧
    (∀ (a b : α) (rest : List α), (handshake α (a :: b :: rest)).2 = .ok rest) :=
  ⟨fun _ => rfl, rfl, fun _ => rfl, fun _ _ _ => rfl⟩

/-- C8: two `Timestamp`s whose `millis` are both absent are equal under the
derived equality, yet `partial_cmp` returns incomparable (`None`), so equal
values are not always comparable. -/
theorem C8_timestamp_equal_but_incomparable :
    (Timestamp.mk none = Timestamp.mk none) ∧
    Timestamp.tryCompare ⟨none⟩ ⟨none⟩ = none ∧
    ¬ (∀ a b : Timestamp, a = b → (Timestamp.tryCompare a b).isSome) := by
  refine ⟨rfl, rfl, fun hall => ?_⟩
  have h := hall ⟨none⟩ ⟨none⟩ rfl
  simp [Timestamp.tryCompare] at h

/-- C9: a failed `remove` is atomic — whenever `remove` misses, the slab is
left unchanged, so every subsequent `get` and `remove` behaves exactly as
before the failed call.  (`get` takes `&self` in the source and is modelled
as a pure function of the state, so it never mutates.) -/
theorem C9_failed_remove_atomic {T : Type} (s : Slab T) (k : String)
    (h : (Slab.remove k s).1 = none) :
    (Slab.remove k s).2 = s ∧
    (∀ u, Slab.get u (Slab.remove k s).2 = Slab.get u s) ∧
    (∀ u, Slab.remove u (Slab.remove k s).2 = Slab.remove u s) := by
  have hs := remove_miss_eq s k h
  exact ⟨hs, fun u => by rw [hs], fun u => by rw [hs]⟩

theorem C9_witness :
    (Slab.remove "0:wrongpwd" (⟨[.occupied ("abcdefgh".data, 7)], 1⟩ : Slab Nat)).1
        = none ∧
    (Slab.remove "0:wrongpwd" (⟨[.occupied ("abcdefgh".data, 7)], 1⟩ : Slab Nat)).2
        = (⟨[.occupied ("abcdefgh".data, 7)], 1⟩ : Slab Nat) :=
  ⟨rfl,
   (C9_failed_remove_atomic (⟨[.occupied ("abcdefgh".data, 7)], 1⟩ : Slab Nat)
     "0:wrongpwd" rfl).1⟩

/-- C10: token acceptance is determined by the parsed (index, label) pair,
not string identity — two tokens with the same `split2` parse (for example
one with a leading `+` or leading zeros on the index) behave identically
under `get` and `remove` on every slab state. -/
theorem C10_acceptance_by_parsed_pair {T : Type} (s : Slab T) (t u : String)
    (h : split2 t = split2 u) :
    Slab.get t s = Slab.get u s ∧ Slab.remove t s = Slab.remove u s := by
  constructor
  · unfold Slab.get
    rw [h]
  · unfold Slab.remove
    rw [h]

theorem C10_witness :
    split2 "+00:abcdefgh" = split2 "0:abcdefgh" ∧
    Slab.get "+00:abcdefgh" (⟨[.occupied ("abcdefgh".data, 7)], 1⟩ : Slab Nat)
      = Slab.get "0:abcdefgh" (⟨[.occupied ("abcdefgh".data, 7)], 1⟩ : Slab Nat) ∧
    Slab.get "0:abcdefgh" (⟨[.occupied ("abcdefgh".data, 7)], 1⟩ : Slab Nat)
      = some 7 :=
  ⟨rfl,
   (C10_acceptance_by_parsed_pair
     (⟨[.occupied ("abcdefgh".data, 7)], 1⟩ : Slab Nat) "+00:abcdefgh"
     "0:abcdefgh" rfl).1,
   rfl⟩

/-- Field lookup on an encoded JSON document (`none` when the document is
not an object or lacks the key). -/
def jsonField (j : Json) (key : String) : Option Json :=
  match j with
  | .obj fields => getField fields key
  | _ => none

/-- C3 counterexample: serializing `Added` with `fields: None` emits
`"fields": null` — the field is not omitted, because `Added.fields` carries
no `skip_serializing_if` attribute in the source. -/
theorem C3_counterexample :
    jsonField (encodeServer (.added "c" "x" none)) "fields" = some .null := rfl

/-- C3 (amended): every optional field that is marked
`skip_serializing_if="Option::is_none"` in the source is omitted entirely
when absent — that is all optional fields of `ClientMessage`, the `id` of
server `Ping`/`Pong`, `Nosub.error`, `MethodResponse.result`/`error` (hence
the `Result` variant), and `Changed.fields`/`cleared` — but the three
unmarked optional fields, `Added.fields`, `AddedBefore.before` and
`MovedBefore.before`, are emitted as JSON `null` when absent. -/
theorem C3_amended_optional_field_emission :
    (∀ v sup, jsonField (encodeClient (.connect v sup none)) "session" = none) ∧
    (jsonField (encodeClient (.ping none)) "id" = none) ∧
    (jsonField (encodeClient (.pong none)) "id" = none) ∧
    (jsonField (encodeServer (.ping none)) "id" = none) ∧
    (jsonField (encodeServer (.pong none)) "id" = none) ∧
    (∀ id, jsonField (encodeServer (.nosub id none)) "error" = none) ∧
    (∀ id err, jsonField (encodeServer (.result ⟨id, none, err⟩)) "result" = none) ∧
    (∀ id res, jsonField (encodeServer (.result ⟨id, res, none⟩)) "error" = none) ∧
    (∀ c i cl, jsonField (encodeServer (.changed c i none cl)) "fields" = none) ∧
    (∀ c i f, jsonField (encodeServer (.changed c i f none)) "cleared" = none) ∧
    (∀ c i b, jsonField (encodeServer (.addedBefore c i none b)) "fields" = none) ∧
    (∀ c i, jsonField (encodeServer (.added c i none)) "fields" = some .null) ∧
    (∀ c i f, jsonField (encodeServer (.addedBefore c i f none)) "before" = some .null) ∧
    (jsonField (encodeServer (.movedBefore none)) "before" = some .null) := by
  refine ⟨fun v sup => rfl, rfl, rfl, rfl, rfl, fun id => rfl,
    fun id err => ?_, fun id res => ?_, fun c i cl => ?_, fun c i f => ?_,
    fun c i b => ?_, fun c i => rfl, fun c i f => ?_, rfl⟩
  · cases err <;> rfl
  · cases res <;> rfl
  · cases cl <;> rfl
  · cases f <;> rfl
  · cases b <;> rfl
  · cases f <;> rfl

/-! ## Round-trip lemmas for the wire types -/

theorem decodeStrList_map (l : List String) : decodeStrList (l.map .str) = some l := by
  induction l with
  | nil => rfl
  | cons s rest ih => simp [decodeStrList, ih]

/-- No `Option<Value>` field of the message holds `Some(Value::Null)` (such
a field serializes to the same JSON as `None` and cannot round-trip). -/
def MethodResponse.noNullOpt (r : MethodResponse) : Prop :=
  r.result ≠ some .null ∧ r.error ≠ some .null

/-- No `Option<Value>` field of the message holds `Some(Value::Null)`. -/
def ServerMessage.noNullOpt : ServerMessage → Prop
  | .result r => r.noNullOpt
  | .nosub _ e => e ≠ some .null
  | .added _ _ f => f ≠ some .null
  | .changed _ _ f _ => f ≠ some .null
  | .addedBefore _ _ f _ => f ≠ some .null
  | _ => True

theorem decodeClient_encodeClient (m : ClientMessage) :
    decodeClient (encodeClient m) = some m := by
  cases m with
  | connect v sup sess =>
    cases sess <;>
      simp [encodeClient, decodeClient, getField, getStrField, getStrListField,
        getOptStrField, optJField, decodeStrList_map]
  | ping id => cases id <;> rfl
  | pong id => cases id <;> rfl
  | method a b c => rfl
  | sub a b c => rfl
  | unsub a => rfl

theorem decodeMRFields_roundtrip (id : String) (res err : Option Json)
    (pre : String) (h1 : res ≠ some .null) (h2 : err ≠ some .null)
    (hpre : pre ≠ "id" ∧ pre ≠ "result" ∧ pre ≠ "error") :
    decodeMethodResponseFields
      ((pre, .str "result") :: methodResponseFields ⟨id, res, err⟩)
      = some ⟨id, res, err⟩ ∧
    decodeMethodResponseFields (methodResponseFields ⟨id, res, err⟩)
      = some ⟨id, res, err⟩ := by
  obtain ⟨hp1, hp2, hp3⟩ := hpre
  rcases res with _ | v <;> rcases err with _ | w <;>
    [skip; rcases w with _ | b | n | s | xs | fs;
     rcases v with _ | b | n | s | xs | fs;
     (rcases v with _ | b | n | s | xs | fs <;>
      rcases w with _ | b2 | n2 | s2 | xs2 | fs2)] <;>
    first
    | exact absurd rfl h1
    | exact absurd rfl h2
    | (constructor <;>
        simp [decodeMethodResponseFields, methodResponseFields, getStrField,
          getOptJsonField, getField, optJField, hp1, hp2, hp3])

theorem decodeServer_encodeServer (m : ServerMessage) (h : m.noNullOpt) :
    decodeServer (encodeServer m) = some m := by
  cases m with
  | connected s => rfl
  | failed v => rfl
  | ping id => cases id <;> rfl
  | pong id => cases id <;> rfl
  | result r =>
    obtain ⟨id, res, err⟩ := r
    obtain ⟨h1, h2⟩ := h
    have hmr := (decodeMRFields_roundtrip id res err "msg" h1 h2
      (by refine ⟨?_, ?_, ?_⟩ <;> decide)).1
    simp [encodeServer, decodeServer, getField, hmr]
  | nosub id e =>
    rcases e with _ | w
    · rfl
    · rcases w with _ | b | n | s | xs | fs <;>
        first
        | exact absurd rfl h
        | rfl
  | updated ms =>
    simp [encodeServer, decodeServer, getField, getStrListField, decodeStrList_map]
  | added c i f =>
    rcases f with _ | v
    · rfl
    · rcases v with _ | b | n | s | xs | fs <;>
        first
        | exact absurd rfl h
        | rfl
  | changed c i f cl =>
    rcases f with _ | v <;> rcases cl with _ | l <;>
      try rcases v with _ | b | n | s | xs | fs
    all_goals
      first
      | exact absurd rfl h
      | rfl
      | simp [encodeServer, decodeServer, getField, getStrField, getOptJsonField,
          getOptStrListField, optJField, decodeStrList_map]
  | removed c i => rfl
  | ready subs =>
    simp [encodeServer, decodeServer, getField, getStrListField, decodeStrList_map]
  | addedBefore c i f b =>
    rcases f with _ | v <;> rcases b with _ | s0 <;>
      try rcases v with _ | b1 | n1 | s1 | xs1 | fs1
    all_goals
      first
      | exact absurd rfl h
      | rfl
  | movedBefore b => cases b <;> rfl

theorem decodeMethodResponse_encodeMethodResponse (r : MethodResponse)
    (h : r.noNullOpt) : decodeMethodResponse (encodeMethodResponse r) = some r := by
  obtain ⟨id, res, err⟩ := r
  obtain ⟨h1, h2⟩ := h
  have hmr := (decodeMRFields_roundtrip id res err "msg" h1 h2
    (by refine ⟨?_, ?_, ?_⟩ <;> decide)).2
  simpa [encodeMethodResponse, decodeMethodResponse] using hmr

theorem decodeTimestamp_encodeTimestamp (t : Timestamp)
    (h : ∀ n, t.millis = some n → n < 2 ^ 64) :
    decodeTimestamp (encodeTimestamp t) = some t := by
  obtain ⟨m⟩ := t
  rcases m with _ | n
  · rfl
  · have hn := h n rfl
    have hcond : (0 : Int) ≤ (n : Int) ∧ (n : Int) < 2 ^ 64 := by
      constructor
      · positivity
      · exact_mod_cast hn
    simp [encodeTimestamp, decodeTimestamp, getField, jsonOfOpt, hcond]
    have h64 : (2 : Nat) ^ 64 = 18446744073709551616 := by norm_num
    omega

/-- C5 counterexample: the encode-then-decode round-trip is not the
identity on every value.  `Result` with `result: Some(Value::Null)`
serializes to `"result": null`, which serde decodes back as `None`: the
decoded value differs from the original. -/
theorem C5_counterexample :
    decodeServer (encodeServer (.result ⟨"x", some .null, none⟩))
      = some (.result ⟨"x", none, none⟩) ∧
    decodeServer (encodeServer (.result ⟨"x", some .null, none⟩))
      ≠ some (.result ⟨"x", some .null, none⟩) := by
  refine ⟨rfl, fun hcontra => ?_⟩
  rw [show decodeServer (encodeServer (.result ⟨"x", some .null, none⟩))
      = some (.result ⟨"x", none, none⟩) from rfl] at hcontra
  simp at hcontra

/-- C5 (amended): decoding an encoding reproduces an equal value for every
`ClientMessage`; for every `ServerMessage` and `MethodResponse` whose
`Option<Value>` fields do not hold `Some(Value::Null)` (a value with such a
field decodes with the field collapsed to `None`, as the counterexample
shows); and for every `Timestamp` (whose `millis`, a `u64` in the source,
is bounded by `2 ^ 64`). -/
theorem C5_amended_roundtrip :
    (∀ m : ClientMessage, decodeClient (encodeClient m) = some m) ∧
    (∀ m : ServerMessage, m.noNullOpt → decodeServer (encodeServer m) = some m) ∧
    (∀ r : MethodResponse, r.noNullOpt →
        decodeMethodResponse (encodeMethodResponse r) = some r) ∧
    (∀ t : Timestamp, (∀ n, t.millis = some n → n < 2 ^ 64) →
        decodeTimestamp (encodeTimestamp t) = some t) :=
  ⟨decodeClient_encodeClient, decodeServer_encodeServer,
   decodeMethodResponse_encodeMethodResponse, decodeTimestamp_encodeTimestamp⟩

theorem C5_witness :
    decodeClient (encodeClient (.method "1" "login" [.str "bob", .str "pw"]))
      = some (.method "1" "login" [.str "bob", .str "pw"]) ∧
    (ServerMessage.added "tasks" "x1" (some (.bool true))).noNullOpt ∧
    decodeServer (encodeServer (.added "tasks" "x1" (some (.bool true))))
      = some (.added "tasks" "x1" (some (.bool true))) ∧
    (MethodResponse.mk "7" (some (.str "ok")) none).noNullOpt ∧
    decodeMethodResponse (encodeMethodResponse ⟨"7", some (.str "ok"), none⟩)
      = some ⟨"7", some (.str "ok"), none⟩ ∧
    (∀ n, (Timestamp.mk (some 42)).millis = some n → n < 2 ^ 64) ∧
    decodeTimestamp (encodeTimestamp ⟨some 42⟩) = some ⟨some 42⟩ := by
  have hadd : (ServerMessage.added "tasks" "x1" (some (.bool true))).noNullOpt := by
    intro hcontra
    injection hcontra with hc
    exact Json.noConfusion hc
  have hmr : (MethodResponse.mk "7" (some (.str "ok")) none).noNullOpt := by
    constructor
    · intro hcontra
      injection hcontra with hc
      exact Json.noConfusion hc
    · intro hcontra
      exact Option.noConfusion hcontra
  have hts : ∀ n, (Timestamp.mk (some 42)).millis = some n → n < 2 ^ 64 := by
    intro n hn
    injection hn with hn2
    subst hn2
    norm_num
  exact ⟨C5_amended_roundtrip.1 _, hadd, C5_amended_roundtrip.2.1 _ hadd,
    hmr, C5_amended_roundtrip.2.2.1 _ hmr, hts, C5_amended_roundtrip.2.2.2 _ hts⟩

/-! ## Malformed-token lemmas -/

theorem splitColon_eq_none (cs : List Char) (h : ':' ∉ cs) :
    splitColon cs = none := by
  induction cs with
  | nil => rfl
  | cons c rest ih =>
    have hc : ¬ (c = ':') := fun heq => h (heq ▸ List.mem_cons_self c rest)
    have hrest : ':' ∉ rest := fun hmem => h (List.mem_cons_of_mem c hmem)
    simp [splitColon, hc, ih hrest]

/-- A token whose parsed slot never matches the stored label misses in both
`get` and `remove`. -/
theorem get_remove_miss_of_label {T : Type} (s : Slab T) (tok : String)
    (n : Nat) (l : Label) (hsp : split2 tok = some (n, l))
    (hmiss : ∀ e : Label × T, s.entries[n]? = some (.occupied e) → e.1 ≠ l) :
    Slab.get tok s = none ∧ (Slab.remove tok s).1 = none := by
  unfold Slab.get Slab.remove
  simp only [hsp]
  rcases hg : SlabRep.getRep s n with _ | e
  · simp
  · have hne := hmiss e ((getRep_eq_some s n e).1 hg)
    simp [hne]

/-- A malformed token relative to a slab state: no `':'` separator at all, a
non-numeric (or overflowing) index before the first `':'`, an index out of
the slab's range, extra `':'` separators spilling into the label part, or a
label part of the wrong length. -/
def MalformedTok {T : Type} (s : Slab T) (tok : String) : Prop :=
  (':' ∉ tok.data) ∨
  (∃ a b, splitColon tok.data = some (a, b) ∧ parseUsize a = none) ∨
  (∃ n l, split2 tok = some (n, l) ∧ s.entries.length ≤ n) ∨
  (∃ n l, split2 tok = some (n, l) ∧ ':' ∈ l) ∨
  (∃ n l, split2 tok = some (n, l) ∧ l.length ≠ 8)

/-- C4: every malformed token — no separator, non-numeric index,
out-of-range index, extra separators, or wrong-length label — misses in
both `get` and `remove`, on every slab state (whose stored labels are, as
in every state reachable in the source, 8 ASCII alphabetic characters drawn
by `random_label`). -/
theorem C4_malformed_tokens_miss {T : Type} (s : Slab T) (tok : String)
    (hs : WfLabels s) (h : MalformedTok s tok) :
    Slab.get tok s = none ∧ (Slab.remove tok s).1 = none := by
  rcases h with h | ⟨a, b, hsp, hpa⟩ | ⟨n, l, hsp, hrange⟩ |
    ⟨n, l, hsp, hcolon⟩ | ⟨n, l, hsp, hlen⟩
  · have hnone : split2 tok = none := by
      unfold split2
      rw [splitColon_eq_none tok.data h]
    unfold Slab.get Slab.remove
    simp [hnone]
  · have hnone : split2 tok = none := by
      unfold split2
      rw [hsp]
      simp [hpa]
    unfold Slab.get Slab.remove
    simp [hnone]
  · refine get_remove_miss_of_label s tok n l hsp (fun e he => ?_)
    rw [List.getElem?_eq_none hrange] at he
    cases he
  · refine get_remove_miss_of_label s tok n l hsp (fun e he heq => ?_)
    have halpha := (hs n e he).2 ':' (heq ▸ hcolon)
    exact absurd halpha (by decide)
  · refine get_remove_miss_of_label s tok n l hsp (fun e he heq => ?_)
    have h8 := (hs n e he).1
    rw [heq] at h8
    exact hlen h8

theorem C4_witness :
    WfLabels (⟨[.occupied ("abcdefgh".data, 7)], 1⟩ : Slab Nat) ∧
    MalformedTok (⟨[.occupied ("abcdefgh".data, 7)], 1⟩ : Slab Nat) "nonsense" ∧
    Slab.get "nonsense" (⟨[.occupied ("abcdefgh".data, 7)], 1⟩ : Slab Nat) = none ∧
    (Slab.remove "nonsense" (⟨[.occupied ("abcdefgh".data, 7)], 1⟩ : Slab Nat)).1
      = none := by
  have hs : WfLabels (⟨[.occupied ("abcdefgh".data, 7)], 1⟩ : Slab Nat) := by
    intro n e he
    rcases n with _ | n
    · injection he with he2
      injection he2 with he3
      rw [← he3]
      decide
    · rw [List.getElem?_eq_none (by simp)] at he
      cases he
  have hm : MalformedTok (⟨[.occupied ("abcdefgh".data, 7)], 1⟩ : Slab Nat)
      "nonsense" := Or.inl (by decide)
  have hc := C4_malformed_tokens_miss
    (⟨[.occupied ("abcdefgh".data, 7)], 1⟩ : Slab Nat) "nonsense" hs hm
  exact ⟨hs, hm, hc.1, hc.2⟩

/-! ## Consuming a slot: a successful removal leaves the same token dead -/

/-- Inversion of a successful `Slab.remove`: the token parsed to an
occupied slot with a matching label, and the result state has that slot
marked vacant and pushed on the free list. -/
theorem remove_hit_inv {T : Type} (s : Slab T) (k : String) (v : T)
    (h : (Slab.remove k s).1 = some v) :
    ∃ n l e, split2 k = some (n, l) ∧ s.entries[n]? = some (.occupied e) ∧
      e.1 = l ∧
      (Slab.remove k s).2 = ⟨s.entries.set n (.vacant s.next), n⟩ := by
  unfold Slab.remove at h ⊢
  rcases hsp : split2 k with _ | ⟨n, l⟩
  · simp only [hsp] at h
    cases h
  · simp only [hsp] at h ⊢
    rcases hg : SlabRep.getRep s n with _ | e
    · simp only [hg] at h
      cases h
    · simp only [hg] at h ⊢
      by_cases he : e.1 = l
      · have hocc := (getRep_eq_some s n e).1 hg
        rw [removeRep_of_occupied s n e hocc] at h ⊢
        exact ⟨n, l, e, rfl, hocc, he, by rw [if_pos he]⟩
      · rw [if_neg he] at h
        cases h

theorem remove_remove_same {T : Type} (s : Slab T) (k : String) (v : T)
    (h : (Slab.remove k s).1 = some v) :
    (Slab.remove k (Slab.remove k s).2).1 = none := by
  obtain ⟨n, l, e, hsp, hocc, he, hstate⟩ := remove_hit_inv s k v h
  have hlt : n < s.entries.length := by
    by_contra hge
    rw [List.getElem?_eq_none (by omega)] at hocc
    cases hocc
  rw [hstate]
  unfold Slab.remove
  simp only [hsp]
  have hvac : SlabRep.getRep
      (⟨s.entries.set n (.vacant s.next), n⟩ : Slab T) n = none := by
    unfold SlabRep.getRep
    rw [List.getElem?_set_eq_of_lt (Entry.vacant s.next) hlt]
  simp only [hvac]

/-- C2: when the actor receives a `Result` frame whose correlation id is
found in the pending slab, it delivers the converted payload to the
registered channel exactly once (a single `deliver` effect, whose own
success is discarded by the `let _ = chan.send(..)` in the source, so an
abandoned caller is not escalated), consuming the slot; a second `Result`
with the same id then finds nothing and terminates the actor with
`Unknown call response ID`, and no frame after the violating one is
processed. -/
theorem C2_result_exactly_once (pending : Slab Nat) (r : MethodResponse)
    (c : Nat) (h : (Slab.remove r.id pending).1 = some c) :
    handleDown pending (.result r)
      = .ok ((Slab.remove r.id pending).2, [.deliver c r.toMethodResult]) ∧
    handleDown (Slab.remove r.id pending).2 (.result r)
      = .error "Unknown call response ID" ∧
    (∀ rest, runDown (Slab.remove r.id pending).2 (.result r :: rest)
      = ((Slab.remove r.id pending).2, [], some "Unknown call response ID")) := by
  have h2 := remove_remove_same pending r.id c h
  have hpair : Slab.remove r.id pending
      = (some c, (Slab.remove r.id pending).2) := by rw [← h]
  have hpair2 : Slab.remove r.id (Slab.remove r.id pending).2
      = (none, (Slab.remove r.id (Slab.remove r.id pending).2).2) := by rw [← h2]
  have hsecond : handleDown (Slab.remove r.id pending).2 (.result r)
      = .error "Unknown call response ID" := by
    simp only [handleDown]
    rw [hpair2]
  refine ⟨?_, hsecond, fun rest => ?_⟩
  · simp only [handleDown]
    rw [hpair]
  · simp only [runDown]
    rw [hsecond]

theorem C2_witness :
    (Slab.remove (MethodResponse.id ⟨"0:abcdefgh", some (.str "ok"), none⟩)
      (⟨[.occupied ("abcdefgh".data, 5)], 1⟩ : Slab Nat)).1 = some 5 ∧
    handleDown (⟨[.occupied ("abcdefgh".data, 5)], 1⟩ : Slab Nat)
      (.result ⟨"0:abcdefgh", some (.str "ok"), none⟩)
      = .ok ((Slab.remove "0:abcdefgh"
          (⟨[.occupied ("abcdefgh".data, 5)], 1⟩ : Slab Nat)).2,
        [.deliver 5 (MethodResponse.toMethodResult
          ⟨"0:abcdefgh", some (.str "ok"), none⟩)]) ∧
    runDown (Slab.remove "0:abcdefgh"
        (⟨[.occupied ("abcdefgh".data, 5)], 1⟩ : Slab Nat)).2
      [.result ⟨"0:abcdefgh", some (.str "ok"), none⟩, .ping none]
      = ((Slab.remove "0:abcdefgh"
          (⟨[.occupied ("abcdefgh".data, 5)], 1⟩ : Slab Nat)).2,
        [], some "Unknown call response ID") :=
  ⟨rfl,
   (C2_result_exactly_once (⟨[.occupied ("abcdefgh".data, 5)], 1⟩ : Slab Nat)
     ⟨"0:abcdefgh", some (.str "ok"), none⟩ 5 rfl).1,
   (C2_result_exactly_once (⟨[.occupied ("abcdefgh".data, 5)], 1⟩ : Slab Nat)
     ⟨"0:abcdefgh", some (.str "ok"), none⟩ 5 rfl).2.2 [.ping none]⟩

/-! ## Decimal tokens: `format!("{}", idx)` parses back to `idx` -/

theorem digitChar_isDigit (d : Nat) (h : d < 10) : (digitChar d).isDigit := by
  interval_cases d <;> decide

theorem digitChar_toNat (d : Nat) (h : d < 10) : (digitChar d).toNat = 48 + d := by
  interval_cases d <;> decide

theorem natReprAux_append (n : Nat) (acc : List Char) :
    natReprAux n acc = natReprAux n [] ++ acc := by
  induction n using Nat.strong_induction_on generalizing acc with
  | _ n ih =>
    by_cases h : n < 10
    · rw [natReprAux]
      conv_rhs => rw [natReprAux]
      simp [h]
    · have hd : n / 10 < n := Nat.div_lt_self (by omega) (by omega)
      rw [natReprAux]
      conv_rhs => rw [natReprAux]
      rw [dif_neg h, dif_neg h, ih _ hd, ih _ hd (digitChar (n % 10) :: [])]
      simp

theorem natRepr_step (n : Nat) (h : ¬ n < 10) :
    natRepr n = natRepr (n / 10) ++ [digitChar (n % 10)] := by
  rw [natRepr, natReprAux, dif_neg h, natReprAux_append]
  rfl

theorem natRepr_all_digits (n : Nat) : ∀ c ∈ natRepr n, c.isDigit := by
  induction n using Nat.strong_induction_on with
  | _ n ih =>
    by_cases h : n < 10
    · intro c hc
      rw [natRepr, natReprAux] at hc
      simp [h] at hc
      rw [hc]
      exact digitChar_isDigit _ (Nat.mod_lt n (by omega))
    · have hd : n / 10 < n := Nat.div_lt_self (by omega) (by omega)
      intro c hc
      rw [natRepr_step n h] at hc
      rcases List.mem_append.1 hc with hc | hc
      · exact ih _ hd c hc
      · rw [List.mem_singleton.1 hc]
        exact digitChar_isDigit _ (Nat.mod_lt n (by omega))

theorem natRepr_cons (n : Nat) :
    ∃ c cs, natRepr n = c :: cs ∧ c.isDigit := by
  induction n using Nat.strong_induction_on with
  | _ n ih =>
    by_cases h : n < 10
    · refine ⟨digitChar (n % 10), [], ?_, digitChar_isDigit _ (Nat.mod_lt n (by omega))⟩
      rw [natRepr, natReprAux]
      simp [h]
    · have hd : n / 10 < n := Nat.div_lt_self (by omega) (by omega)
      obtain ⟨c, cs, hrepr, hdig⟩ := ih _ hd
      refine ⟨c, cs ++ [digitChar (n % 10)], ?_, hdig⟩
      rw [natRepr_step n h, hrepr]
      rfl

theorem natRepr_foldl (n a : Nat) :
    (natRepr n).foldl (fun a c => a * 10 + (c.toNat - 48)) a
      = a * 10 ^ (natRepr n).length + n := by
  induction n using Nat.strong_induction_on generalizing a with
  | _ n ih =>
    by_cases h : n < 10
    · have hrepr : natRepr n = [digitChar (n % 10)] := by
        rw [natRepr, natReprAux]
        simp [h]
      rw [hrepr]
      simp [List.foldl, digitChar_toNat _ (Nat.mod_lt n (by omega))]
      omega
    · have hd : n / 10 < n := Nat.div_lt_self (by omega) (by omega)
      rw [natRepr_step n h, List.foldl_append, ih _ hd]
      simp [List.foldl, digitChar_toNat _ (Nat.mod_lt n (by omega)),
        List.length_append, pow_succ]
      have hx : a * (10 ^ (natRepr (n / 10)).length * 10)
          = a * 10 ^ (natRepr (n / 10)).length * 10 := by ring
      omega

theorem parseUsize_natRepr (n : Nat) (h : n < 2 ^ 64) :
    parseUsize (natRepr n) = some n := by
  obtain ⟨c, cs, hrepr, hdig⟩ := natRepr_cons n
  have hall : (natRepr n).all Char.isDigit := by
    rw [List.all_eq_true]
    intro c hc
    exact natRepr_all_digits n c hc
  have hfold : (natRepr n).foldl (fun a c => a * 10 + (c.toNat - 48)) 0 = n := by
    rw [natRepr_foldl]
    simp
  unfold parseUsize
  rw [hrepr] at hall hfold ⊢
  split
  · rename_i rest heq
    exfalso
    injection heq with hc2 hcs2
    rw [hc2] at hdig
    exact absurd hdig (by decide)
  · rename_i other hother
    simp only [List.isEmpty_cons, hall, hfold, if_pos h]
    simp [hfold, h]

theorem splitColon_append (xs ys : List Char) (h : ':' ∉ xs) :
    splitColon (xs ++ ':' :: ys) = some (xs, ys) := by
  induction xs with
  | nil => simp [splitColon]
  | cons c rest ih =>
    have hc : ¬ (c = ':') := fun heq => h (heq ▸ List.mem_cons_self _ _)
    have hr : ':' ∉ rest := fun hm => h (List.mem_cons_of_mem _ hm)
    simp [splitColon, hc, ih hr]

/-- A token `"{idx}:{label}"` built by `insert` parses back to exactly
`(idx, label)` whenever the index fits in a `usize`: the separator is the
first `':'`, and the index part is all digits. -/
theorem split2_token (idx : Nat) (lab : Label) (hidx : idx < 2 ^ 64) :
    split2 ⟨natRepr idx ++ ':' :: lab⟩ = some (idx, lab) := by
  have hnc : ':' ∉ natRepr idx := by
    intro hmem
    exact absurd (natRepr_all_digits idx ':' hmem) (by decide)
  unfold split2
  rw [show (String.mk (natRepr idx ++ ':' :: lab)).data
      = natRepr idx ++ ':' :: lab from rfl]
  simp only [splitColon_append _ _ hnc, parseUsize_natRepr idx hidx]

theorem goodLabel_no_colon (lab : Label) (h : GoodLabel lab) : ':' ∉ lab :=
  fun hmem => absurd (h.2 ':' hmem) (by decide)

/-! ## Slot liveness and deadness under slab operation traces -/

theorem getElem?_some_lt {α : Type} (l : List α) (j : Nat) (x : α)
    (h : l[j]? = some x) : j < l.length := by
  by_contra hge
  rw [List.getElem?_eq_none (by omega)] at h
  cases h

/-- Slot `idx` holds exactly the pair `(lab, v)`. -/
def liveAt {T : Type} (s : Slab T) (idx : Nat) (lab : Label) (v : T) : Prop :=
  s.entries[idx]? = some (.occupied (lab, v))

/-- Slot `idx` never matches label `lab`: it is out of range, vacant, or
occupied under a different label. -/
def deadFor {T : Type} (s : Slab T) (idx : Nat) (lab : Label) : Prop :=
  ∀ e : Label × T, s.entries[idx]? = some (.occupied e) → e.1 ≠ lab

/-- `slab::Slab::insert` never disturbs an occupied slot: it either appends
or overwrites a vacant slot (and the `unreachable!()` arm keeps the state). -/
theorem insertRep_preserves_occupied {T : Type} (s : SlabRep T) (v w : T)
    (j : Nat) (h : s.entries[j]? = some (.occupied w)) :
    (s.insertRep v).2.entries[j]? = some (.occupied w) := by
  have hj : j < s.entries.length := getElem?_some_lt _ _ _ h
  unfold SlabRep.insertRep
  by_cases hk : s.next = s.entries.length
  · simp only [hk, if_pos]
    rw [List.getElem?_append_left hj]
    exact h
  · simp only [hk, if_neg, if_false]
    rcases hm : s.entries[s.next]? with _ | entry
    · simp only [hm]
      exact h
    · rcases entry with k | w2
      · simp only [hm]
        have hne : s.next ≠ j := by
          intro heq
          rw [heq, h] at hm
          cases hm
        rw [List.getElem?_set_ne hne]
        exact h
      · simp only [hm]
        exact h

/-- A removal whose key does not parse to this slot's (index, label) pair
leaves the slot intact. -/
theorem remove_preserves_live {T : Type} (s : Slab T) (k : String)
    (idx : Nat) (lab : Label) (v : T) (hlive : liveAt s idx lab v)
    (hne : split2 k ≠ some (idx, lab)) :
    liveAt (Slab.remove k s).2 idx lab v := by
  unfold liveAt at hlive ⊢
  unfold Slab.remove
  rcases hsp : split2 k with _ | ⟨m, l⟩
  · exact hlive
  · simp only
    rcases hg : SlabRep.getRep s m with _ | e
    · exact hlive
    · by_cases he : e.1 = l
      · have hocc := (getRep_eq_some s m e).1 hg
        rw [removeRep_of_occupied s m e hocc]
        simp only [he, if_pos]
        have hmidx : m ≠ idx := by
          intro heq
          rw [heq, hlive] at hocc
          injection hocc with hocc2
          injection hocc2 with hocc3
          apply hne
          rw [hsp, heq]
          rw [← hocc3] at he
          have hll : lab = l := he
          rw [hll]
        rw [List.getElem?_set_ne hmidx]
        exact hlive
      · simp only [he, if_neg, if_false]
        exact hlive

/-- A live slot yields its value from both `get` and `remove` through any
token that parses to its (index, label) pair. -/
theorem hit_of_live {T : Type} (s : Slab T) (tok : String) (idx : Nat)
    (lab : Label) (v : T) (hlive : liveAt s idx lab v)
    (hsp : split2 tok = some (idx, lab)) :
    Slab.get tok s = some v ∧ (Slab.remove tok s).1 = some v := by
  unfold liveAt at hlive
  have hg : SlabRep.getRep s idx = some (lab, v) := (getRep_eq_some s idx _).2 hlive
  constructor
  · unfold Slab.get
    simp only [hsp, hg, if_pos]
  · unfold Slab.remove
    simp only [hsp, hg]
    rw [removeRep_of_occupied s idx _ hlive]
    simp

theorem wf_head {T : Type} (s : SlabRep T) (hwf : SlabWf s) :
    s.next = s.entries.length ∨ ∃ k, s.entries[s.next]? = some (.vacant k) := by
  obtain ⟨fl, hfl⟩ := hwf
  generalize hn : s.next = n at hfl
  cases hfl with
  | nil => exact Or.inl rfl
  | cons hget htail hnm => exact Or.inr ⟨_, hget⟩

/-- Under well-formedness, `insert` really does occupy the slot named by the
returned index, and that index is at most the old array length. -/
theorem insertRep_spec {T : Type} (s : SlabRep T) (v : T) (hwf : SlabWf s) :
    (s.insertRep v).2.entries[(s.insertRep v).1]? = some (.occupied v) ∧
    (s.insertRep v).1 ≤ s.entries.length := by
  rcases wf_head s hwf with hk | ⟨k, hk⟩
  · have hins : s.insertRep v
        = (s.next, ⟨s.entries ++ [.occupied v], s.next + 1⟩) := by
      unfold SlabRep.insertRep
      rw [if_pos hk]
    rw [hins]
    constructor
    · show (s.entries ++ [.occupied v])[s.next]? = some (.occupied v)
      rw [hk]
      exact List.getElem?_concat_length _ _
    · show s.next ≤ s.entries.length
      omega
  · have hlt : s.next < s.entries.length := getElem?_some_lt _ _ _ hk
    have hne : s.next ≠ s.entries.length := by omega
    have hins : s.insertRep v
        = (s.next, ⟨s.entries.set s.next (.occupied v), k⟩) := by
      unfold SlabRep.insertRep
      rw [if_neg hne, hk]
    rw [hins]
    constructor
    · show (s.entries.set s.next (.occupied v))[s.next]? = some (.occupied v)
      exact List.getElem?_set_eq_of_lt _ hlt
    · show s.next ≤ s.entries.length
      omega

theorem liveAt_runOps {T : Type} (s : Slab T) (ops : List (SlabOp T))
    (idx : Nat) (lab : Label) (v : T) (hlive : liveAt s idx lab v)
    (hops : ∀ k, SlabOp.rem k ∈ ops → split2 k ≠ some (idx, lab)) :
    liveAt (runOps s ops) idx lab v := by
  induction ops generalizing s with
  | nil => exact hlive
  | cons op rest ih =>
    have hstep : liveAt (applyOp s op) idx lab v := by
      cases op with
      | ins l2 w => exact insertRep_preserves_occupied s (l2, w) (lab, v) idx hlive
      | rem k =>
        exact remove_preserves_live s k idx lab v hlive
          (hops k (List.mem_cons_self _ _))
    exact ih (applyOp s op) hstep (fun k hk => hops k (List.mem_cons_of_mem _ hk))

theorem remove_preserves_dead {T : Type} (s : Slab T) (k : String)
    (idx : Nat) (lab : Label) (hdead : deadFor s idx lab) :
    deadFor (Slab.remove k s).2 idx lab := by
  unfold Slab.remove
  rcases hsp : split2 k with _ | ⟨m, l⟩
  · exact hdead
  · simp only
    rcases hg : SlabRep.getRep s m with _ | e
    · exact hdead
    · by_cases he : e.1 = l
      · have hocc := (getRep_eq_some s m e).1 hg
        rw [removeRep_of_occupied s m e hocc]
        simp only [he, if_pos]
        intro f hf
        by_cases hm : m = idx
        · rw [hm] at hf
          rw [List.getElem?_set_eq_of_lt _
            (getElem?_some_lt _ _ _ (hm ▸ hocc))] at hf
          simp at hf
        · rw [List.getElem?_set_ne hm] at hf
          exact hdead f hf
      · simp only [he, if_neg, if_false]
        exact hdead

theorem insert_preserves_dead {T : Type} (s : Slab T) (l2 : Label) (w : T)
    (idx : Nat) (lab : Label) (hne : l2 ≠ lab) (hdead : deadFor s idx lab) :
    deadFor (Slab.insert l2 w s).2 idx lab := by
  intro f hf
  unfold Slab.insert SlabRep.insertRep at hf
  by_cases hk : s.next = s.entries.length
  · simp only [hk, if_pos] at hf
    by_cases hi : idx < s.entries.length
    · rw [List.getElem?_append_left hi] at hf
      exact hdead f hf
    · by_cases hieq : idx = s.entries.length
      · rw [hieq, List.getElem?_concat_length] at hf
        injection hf with hf2
        injection hf2 with hf3
        intro hflab
        apply hne
        rw [← hf3] at hflab
        exact hflab
      · rw [List.getElem?_eq_none (by simp; omega)] at hf
        cases hf
  · simp only [hk, if_neg, if_false] at hf
    rcases hm : s.entries[s.next]? with _ | entry
    · simp only [hm] at hf
      exact hdead f hf
    · rcases entry with k2 | w2
      · simp only [hm] at hf
        by_cases hsn : s.next = idx
        · rw [hsn] at hf hm
          rw [List.getElem?_set_eq_of_lt _ (getElem?_some_lt _ _ _ hm)] at hf
          injection hf with hf2
          injection hf2 with hf3
          intro hflab
          apply hne
          rw [← hf3] at hflab
          exact hflab
        · rw [List.getElem?_set_ne hsn] at hf
          exact hdead f hf
      · simp only [hm] at hf
        exact hdead f hf

theorem dead_after_remove {T : Type} (s : Slab T) (tok : String) (idx : Nat)
    (lab : Label) (v : T) (hsp : split2 tok = some (idx, lab))
    (h : (Slab.remove tok s).1 = some v) :
    deadFor (Slab.remove tok s).2 idx lab := by
  obtain ⟨n, l, e, hsp2, hocc, he, hstate⟩ := remove_hit_inv s tok v h
  rw [hsp] at hsp2
  injection hsp2 with hp
  have h1 : idx = n := congrArg Prod.fst hp
  have h2 : lab = l := congrArg Prod.snd hp
  subst h1
  rw [hstate]
  intro f hf
  simp only at hf
  rw [List.getElem?_set_eq_of_lt _ (getElem?_some_lt _ _ _ hocc)] at hf
  simp at hf

theorem dead_runOps {T : Type} (s : Slab T) (ops : List (SlabOp T))
    (idx : Nat) (lab : Label) (hdead : deadFor s idx lab)
    (hops : ∀ l2 w, SlabOp.ins l2 w ∈ ops → l2 ≠ lab) :
    deadFor (runOps s ops) idx lab := by
  induction ops generalizing s with
  | nil => exact hdead
  | cons op rest ih =>
    have hstep : deadFor (applyOp s op) idx lab := by
      cases op with
      | ins l2 w =>
        exact insert_preserves_dead s l2 w idx lab
          (hops l2 w (List.mem_cons_self _ _)) hdead
      | rem k => exact remove_preserves_dead s k idx lab hdead
    exact ih (applyOp s op) hstep (fun l2 w hm => hops l2 w (List.mem_cons_of_mem _ hm))

/-- C1: starting from any well-formed slab (with fewer than `2 ^ 64` slots,
as on a 64-bit target) and any `random_label`-style label, the token
returned by `insert(v)` yields `v` from both `get` and `remove` across any
further operations that do not remove its slot; and once the slot is
removed, the same token never again yields a value from `get` or `remove`,
across any further operations whose inserted labels (each freshly drawn by
`random_label`) differ from the token's label — including inserts that
reuse the freed slot. -/
theorem C1_token_lifecycle {T : Type} (s : Slab T) (lab : Label) (v : T)
    (hwf : SlabWf s) (_hlab : GoodLabel lab)
    (hlen : s.entries.length < 2 ^ 64) :
    (∀ ops : List (SlabOp T),
        (∀ k, SlabOp.rem k ∈ ops → split2 k ≠ split2 (Slab.insert lab v s).1) →
        Slab.get (Slab.insert lab v s).1 (runOps (Slab.insert lab v s).2 ops)
          = some v ∧
        (Slab.remove (Slab.insert lab v s).1
          (runOps (Slab.insert lab v s).2 ops)).1 = some v) ∧
    (∀ ops1 ops2 : List (SlabOp T),
        (∀ k, SlabOp.rem k ∈ ops1 → split2 k ≠ split2 (Slab.insert lab v s).1) →
        (∀ l2 w, SlabOp.ins l2 w ∈ ops2 → l2 ≠ lab) →
        Slab.get (Slab.insert lab v s).1
          (runOps (Slab.remove (Slab.insert lab v s).1
            (runOps (Slab.insert lab v s).2 ops1)).2 ops2) = none ∧
        (Slab.remove (Slab.insert lab v s).1
          (runOps (Slab.remove (Slab.insert lab v s).1
            (runOps (Slab.insert lab v s).2 ops1)).2 ops2)).1 = none) := by
  have hspec := insertRep_spec s (lab, v) hwf
  have hidxlt : (SlabRep.insertRep s (lab, v)).1 < 2 ^ 64 :=
    Nat.lt_of_le_of_lt hspec.2 hlen
  have hsp : split2 (Slab.insert lab v s).1
      = some ((SlabRep.insertRep s (lab, v)).1, lab) :=
    split2_token (SlabRep.insertRep s (lab, v)).1 lab hidxlt
  have hlive0 : liveAt (Slab.insert lab v s).2
      (SlabRep.insertRep s (lab, v)).1 lab v := hspec.1
  have hlivepart : ∀ ops : List (SlabOp T),
      (∀ k, SlabOp.rem k ∈ ops → split2 k ≠ split2 (Slab.insert lab v s).1) →
      liveAt (runOps (Slab.insert lab v s).2 ops)
        (SlabRep.insertRep s (lab, v)).1 lab v := by
    intro ops hops
    refine liveAt_runOps _ ops _ lab v hlive0 (fun k hk heq => ?_)
    exact hops k hk (heq.trans hsp.symm)
  constructor
  · intro ops hops
    exact hit_of_live _ _ _ lab v (hlivepart ops hops) hsp
  · intro ops1 ops2 hops1 hops2
    have hrem : (Slab.remove (Slab.insert lab v s).1
        (runOps (Slab.insert lab v s).2 ops1)).1 = some v :=
      (hit_of_live _ _ _ lab v (hlivepart ops1 hops1) hsp).2
    have hdead1 := dead_after_remove _ _ _ lab v hsp hrem
    have hdead2 := dead_runOps _ ops2 _ lab hdead1 hops2
    exact get_remove_miss_of_label _ _ _ lab hsp hdead2

theorem C1_witness :
    GoodLabel "abcdefgh".data ∧
    SlabWf (Slab.empty Nat) ∧
    (Slab.empty Nat).entries.length < 2 ^ 64 ∧
    Slab.get (Slab.insert "abcdefgh".data 42 (Slab.empty Nat)).1
      (runOps (Slab.insert "abcdefgh".data 42 (Slab.empty Nat)).2 [])
      = some 42 ∧
    Slab.get (Slab.insert "abcdefgh".data 42 (Slab.empty Nat)).1
      (runOps (Slab.remove (Slab.insert "abcdefgh".data 42 (Slab.empty Nat)).1
        (runOps (Slab.insert "abcdefgh".data 42 (Slab.empty Nat)).2 [])).2
        [SlabOp.ins "ijklmnop".data 7]) = none := by
  have hlab : GoodLabel "abcdefgh".data := by decide
  have hwf : SlabWf (Slab.empty Nat) := ⟨[], FreeList.nil []⟩
  have hlen : (Slab.empty Nat).entries.length < 2 ^ 64 := by norm_num [Slab.empty]
  have hc := C1_token_lifecycle (Slab.empty Nat) "abcdefgh".data 42 hwf hlab hlen
  refine ⟨hlab, hwf, hlen, ?_, ?_⟩
  · exact (hc.1 [] (fun k hk => absurd hk (List.not_mem_nil _))).1
  · refine (hc.2 [] [SlabOp.ins "ijklmnop".data 7]
      (fun k hk => absurd hk (List.not_mem_nil _)) ?_).1
    intro l2 w hm
    rw [List.mem_singleton] at hm
    injection hm with h1 h2
    subst h1
    decide
